import Mathlib

/-!
Verification development for the coastal flood modeling repository.

Real-valued scalars of the program (elevations, water levels, geographic
degrees) are embedded as exact rationals (`ℚ`); 2D arrays are embedded as
functions `ℕ → ℕ → ℚ` together with explicit dimensions.
-/

/-! ## Scenario calculator (Simul_corrected.py, run_simulation_on_vrt lines 63-64) -/

/-- `total_water_level = tide_zh + surge + slr`. -/
def total_water_level (tide_zh surge slr : ℚ) : ℚ :=
  tide_zh + surge + slr

/-- `flood_threshold = total_water_level - datum_offset`. -/
def flood_threshold (tide_zh surge slr datum_offset : ℚ) : ℚ :=
  total_water_level tide_zh surge slr - datum_offset

/-! ## Grid sanitizer

Simul_corrected.py lines 82-89: `nodata_value = src.nodata if src.nodata is
not None else -9999`, then `np.where(dem == nodata_value, 9999, dem)`, then
`np.where(dem < -100, 9999, dem)`, applied elementwise. -/

/-- Elementwise sanitization of Simul_corrected.py (two rules: sentinel
equality, then the `< -100` safety floor), with the optional sentinel
defaulting to `-9999`. -/
def sanitizeCell (nodata : Option ℚ) (v : ℚ) : ℚ :=
  let nodata_value : ℚ := nodata.getD (-9999)
  let v1 : ℚ := if v = nodata_value then 9999 else v
  if v1 < -100 then 9999 else v1

/-- Elementwise sanitization of Simul.py line 39 (single rule:
`np.where(dem < -100, 9999, dem)`). -/
def sanitizeCellSimul (v : ℚ) : ℚ :=
  if v < -100 then 9999 else v

/-! ## Elevation grids -/

/-- A sanitized elevation grid: `h × w` cells, row `r` and column `c`
in bounds when `r < h` and `c < w`; values out of bounds are irrelevant. -/
structure Grid where
  h : ℕ
  w : ℕ
  elev : ℕ → ℕ → ℚ

/-- All in-bounds cells, row-major. -/
def Grid.cells (g : Grid) : List (ℕ × ℕ) :=
  (List.range g.h).flatMap fun r => (List.range g.w).map fun c => (r, c)

/-- `dem_array.max()`: the maximum elevation over the grid (fold seeded with
the value at `(0,0)`, which is in bounds for every nonempty grid). -/
def Grid.gmax (g : Grid) : ℚ :=
  g.cells.foldr (fun p m => max (g.elev p.1 p.2) m) (g.elev 0 0)

/-- Interior cells, i.e. the numpy slice `[1:-1, 1:-1]`: not on the
outermost row or column. -/
def Grid.inter (g : Grid) (r c : ℕ) : Prop :=
  0 < r ∧ r + 1 < g.h ∧ 0 < c ∧ c + 1 < g.w

instance (g : Grid) (r c : ℕ) : Decidable (g.inter r c) :=
  inferInstanceAs (Decidable (_ ∧ _ ∧ _ ∧ _))

/-! ## Seed construction (Simul_corrected.py lines 93-95)

`seed = np.copy(dem_array)`; `seed[1:-1, 1:-1] = dem_array.max()`;
`seed = np.where(dem_array < flood_threshold, seed, dem_array)`. -/

/-- The seed after the interior fill: interior cells hold the global
maximum, border cells their own elevation. -/
def seedFill (g : Grid) (r c : ℕ) : ℚ :=
  if g.inter r c then g.gmax else g.elev r c

/-- The final seed: where `dem < flood_threshold` keep the filled seed,
elsewhere take the elevation itself. -/
def seed (g : Grid) (t : ℚ) (r c : ℕ) : ℚ :=
  if g.elev r c < t then seedFill g r c else g.elev r c

/-! ## Morphological reconstruction by erosion

Modelled from the spec: the engine calls the external
`skimage.morphology.reconstruction(seed, dem_array, method='erosion')`,
whose algorithm is not part of this repository.  Following §4.3 Step B of
the spec, the working surface is repeatedly updated by
`R[cell] := max(E[cell], min(R[cell], min over 4-connected neighbors))`
until a fixed point is reached. -/

/-- In-bounds 4-connected neighbors of a cell. -/
def nbrs (g : Grid) (r c : ℕ) : List (ℕ × ℕ) :=
  (if r + 1 < g.h then [(r + 1, c)] else []) ++
  (if 0 < r then [(r - 1, c)] else []) ++
  (if c + 1 < g.w then [(r, c + 1)] else []) ++
  (if 0 < c then [(r, c - 1)] else [])

/-- One synchronous pass of geodesic erosion constrained below by the
mask `g.elev`. -/
def erodeStep (g : Grid) (R : ℕ → ℕ → ℚ) (r c : ℕ) : ℚ :=
  max (g.elev r c) ((nbrs g r c).foldr (fun p m => min (R p.1 p.2) m) (R r c))

/-- The working surface after `k` erosion passes starting from `S`. -/
def erodeFrom (g : Grid) (S : ℕ → ℕ → ℚ) : ℕ → (ℕ → ℕ → ℚ)
  | 0 => S
  | k + 1 => erodeStep g (erodeFrom g S k)

/-- The reconstructed surface of the engine: `k` erosion passes starting
from the engine's seed (the fixed point is reached once `g.h * g.w ≤ k`,
in the sense that the sub-threshold set no longer changes). -/
def reconstructErosion (g : Grid) (t : ℚ) (k : ℕ) : ℕ → ℕ → ℚ :=
  erodeFrom g (seed g t) k

/-- Mask extraction (Simul_corrected.py line 99):
`flood_mask = (flooded < flood_threshold)`. -/
def floodMask (g : Grid) (t : ℚ) (k : ℕ) (r c : ℕ) : Bool :=
  decide (reconstructErosion g t k r c < t)

/-! ## Hydrological connectivity (the specification's flood rule) -/

/-- 4-connectivity of two cells (N/S/E/W neighbors). -/
def adjacentCells (r c r' c' : ℕ) : Prop :=
  (r' = r + 1 ∧ c' = c) ∨ (r = r' + 1 ∧ c' = c) ∨
  (r' = r ∧ c' = c + 1) ∨ (r' = r ∧ c = c' + 1)

/-- A cell is reachable when some 4-connected path of in-bounds cells,
starting at a border cell, reaches it with every cell on the path
(endpoints included) strictly below the threshold. -/
inductive Reach (g : Grid) (t : ℚ) : ℕ → ℕ → Prop where
  | border (r c : ℕ) : r < g.h → c < g.w → ¬ g.inter r c →
      g.elev r c < t → Reach g t r c
  | step (r c r' c' : ℕ) : Reach g t r c → adjacentCells r c r' c' →
      r' < g.h → c' < g.w → g.elev r' c' < t → Reach g t r' c'

/-! ## Tile planner (Simul_corrected.py, create_tiles lines 447-476) -/

/-- A rectangular geographic region `(min_lon, min_lat, max_lon, max_lat)`. -/
structure TileBounds where
  min_lon : ℚ
  min_lat : ℚ
  max_lon : ℚ
  max_lat : ℚ
deriving DecidableEq

/-- `n_tiles_x = int(np.ceil((max_lon - min_lon) / tile_size_deg))`,
with the subtraction, division and ceiling taken in exact rational
arithmetic.  The program evaluates this expression in IEEE binary64,
which matters when the exact extent-over-size quotient sits on an integer
boundary: a one-ulp upward rounding of the quotient raises the ceiling by
one (see the boundary theorem for `create_tiles` below). -/
def n_tiles_x (bounds : TileBounds) (tile_size_deg : ℚ) : ℕ :=
  (⌈(bounds.max_lon - bounds.min_lon) / tile_size_deg⌉).toNat

/-- `n_tiles_y = int(np.ceil((max_lat - min_lat) / tile_size_deg))`, in
exact rational arithmetic (see `n_tiles_x` on the binary64 caveat). -/
def n_tiles_y (bounds : TileBounds) (tile_size_deg : ℚ) : ℕ :=
  (⌈(bounds.max_lat - bounds.min_lat) / tile_size_deg⌉).toNat

/-- Tile `(i, j)` of the loop body of `create_tiles`: raw extent expanded
by `overlap` on interior edges, then clamped into the overall bounds. -/
def tile_at (bounds : TileBounds) (tile_size_deg overlap : ℚ) (i j : ℕ) :
    TileBounds :=
  let tile_min_lon : ℚ :=
    bounds.min_lon + i * tile_size_deg - (if 0 < i then overlap else 0)
  let tile_max_lon : ℚ :=
    min (bounds.min_lon + (i + 1) * tile_size_deg + overlap) bounds.max_lon
  let tile_min_lat : ℚ :=
    bounds.min_lat + j * tile_size_deg - (if 0 < j then overlap else 0)
  let tile_max_lat : ℚ :=
    min (bounds.min_lat + (j + 1) * tile_size_deg + overlap) bounds.max_lat
  ⟨max tile_min_lon bounds.min_lon, max tile_min_lat bounds.min_lat,
    tile_max_lon, tile_max_lat⟩

/-- `create_tiles`: the row-major (`j` outer, `i` inner) list of tiles. -/
def create_tiles (bounds : TileBounds) (tile_size_deg overlap : ℚ) :
    List TileBounds :=
  (List.range (n_tiles_y bounds tile_size_deg)).flatMap fun j =>
    (List.range (n_tiles_x bounds tile_size_deg)).map fun i =>
      tile_at bounds tile_size_deg overlap i j

/-! ## Tile orchestrator (Simul_corrected.py, process_tiles lines 527-573)

The per-tile work (`run_simulation_on_vrt` plus the save calls inside the
`try` block) is abstracted as a fallible function from tile bounds to the
statistics the loop accumulates. -/

/-- The per-tile statistics `process_tiles` accumulates from a successful
simulation's metadata. -/
structure SimOutcome where
  flooded_pixels : ℕ
  flooded_area_km2 : ℚ
deriving DecidableEq

/-- The loop of `process_tiles`: each tile is attempted; a success appends
`(some outcome, bounds)` and accumulates the running totals, a caught
exception appends `(none, none, bounds)` -- here `(none, bounds)` -- and
continues with the remaining tiles.  Returns the ordered results together
with `(total_flooded_pixels, total_flooded_area_km2)`. -/
def process_tiles (sim : TileBounds → Except String SimOutcome) :
    List TileBounds → List (Option SimOutcome × TileBounds) × ℕ × ℚ
  | [] => ([], 0, 0)
  | tb :: rest =>
    let acc := process_tiles sim rest
    match sim tb with
    | Except.ok m =>
        ((some m, tb) :: acc.1, m.flooded_pixels + acc.2.1,
          m.flooded_area_km2 + acc.2.2)
    | Except.error _ => ((none, tb) :: acc.1, acc.2.1, acc.2.2)

/-! ## Auxiliary sets for the convergence argument -/

/-- The in-bounds cells as a finite set. -/
def cellsFinset (g : Grid) : Finset (ℕ × ℕ) :=
  Finset.range g.h ×ˢ Finset.range g.w

/-- The cells whose working-surface value lies below the threshold after
`k` erosion passes from `S`. -/
def floodSet (g : Grid) (t : ℚ) (S : ℕ → ℕ → ℚ) (k : ℕ) : Finset (ℕ × ℕ) :=
  (cellsFinset g).filter fun p => erodeFrom g S k p.1 p.2 < t

/-- One step of the sub-threshold region: cells below the threshold in the
mask that already lie in the region or are 4-adjacent to it. -/
def stepSet (g : Grid) (t : ℚ) (A : Finset (ℕ × ℕ)) : Finset (ℕ × ℕ) :=
  (cellsFinset g).filter fun p =>
    g.elev p.1 p.2 < t ∧ (p ∈ A ∨ ∃ q ∈ nbrs g p.1 p.2, q ∈ A)

/-! ## Concrete test data -/

/-- The 5×5 end-to-end example: a low channel `(0,1)-(1,1)-(2,1)` running
from the border, and an equally low but disconnected interior cell
`(2,3)`; all other cells are high ground. -/
def ex5 : Grid :=
  ⟨5, 5, fun r c => if (c = 1 ∧ r ≤ 2) ∨ (r = 2 ∧ c = 3) then 0 else 5⟩

/-- 3×3 grid whose single interior cell `(1,1)` is below the threshold `1`. -/
def exC2 : Grid := ⟨3, 3, fun r c => if r = 1 ∧ c = 1 then 0 else 5⟩

/-- 2×2 grid (no interior cells). -/
def exC6 : Grid := ⟨2, 2, fun r c => if r = 0 ∧ c = 0 then 0 else 5⟩

/-- Constant grid for the reconstruction-invariant witness. -/
def exC3 : Grid := ⟨2, 2, fun _ _ => 1⟩

/-- Constant seed lying above `exC3`. -/
def exC3seed : ℕ → ℕ → ℚ := fun _ _ => 10

/-- A per-tile simulation failing with one error detail. -/
def simErrA : TileBounds → Except String SimOutcome :=
  fun _ => Except.error "tile region has no data"

/-- A per-tile simulation failing with a different error detail. -/
def simErrB : TileBounds → Except String SimOutcome :=
  fun _ => Except.error "input file not found"

/-! ## Generic list lemmas -/

theorem foldr_min_le_init {α : Type} (f : α → ℚ) (l : List α) (a : ℚ) :
    l.foldr (fun p m => min (f p) m) a ≤ a := by
  induction l with
  | nil => exact le_refl a
  | cons x xs ih => exact le_trans (min_le_right _ _) ih

theorem foldr_min_lt_iff {α : Type} (f : α → ℚ) (l : List α) (a t : ℚ) :
    l.foldr (fun p m => min (f p) m) a < t ↔ a < t ∨ ∃ p ∈ l, f p < t := by
  induction l with
  | nil => simp
  | cons x xs ih =>
    simp only [List.foldr_cons]
    constructor
    · intro h
      rcases min_lt_iff.mp h with h | h
      · exact Or.inr ⟨x, List.mem_cons_self x xs, h⟩
      · rcases ih.mp h with h | ⟨p, hp, hpt⟩
        · exact Or.inl h
        · exact Or.inr ⟨p, List.mem_cons_of_mem _ hp, hpt⟩
    · intro h
      rcases h with h | ⟨p, hp, hpt⟩
      · exact min_lt_iff.mpr (Or.inr (ih.mpr (Or.inl h)))
      · rcases List.mem_cons.mp hp with h' | h'
        · exact min_lt_iff.mpr (Or.inl (h' ▸ hpt))
        · exact min_lt_iff.mpr (Or.inr (ih.mpr (Or.inr ⟨p, h', hpt⟩)))

theorem le_foldr_max {α : Type} (f : α → ℚ) (l : List α) (a : ℚ) {p : α}
    (hp : p ∈ l) : f p ≤ l.foldr (fun q m => max (f q) m) a := by
  induction l with
  | nil => cases hp
  | cons x xs ih =>
    simp only [List.foldr_cons]
    rcases List.mem_cons.mp hp with h' | h'
    · exact h' ▸ le_max_left _ _
    · exact le_trans (ih h') (le_max_right _ _)

theorem mem_ite_single {α : Type} {cond : Prop} [Decidable cond] {x p : α}
    (h : p ∈ if cond then [x] else []) : cond ∧ p = x := by
  by_cases hc : cond
  · rw [if_pos hc] at h
    exact ⟨hc, List.mem_singleton.mp h⟩
  · rw [if_neg hc] at h
    cases h

/-! ## Grid and seed lemmas -/

theorem mem_cells {g : Grid} {r c : ℕ} (hr : r < g.h) (hc : c < g.w) :
    (r, c) ∈ g.cells := by
  unfold Grid.cells
  exact List.mem_flatMap.mpr ⟨r, List.mem_range.mpr hr,
    List.mem_map.mpr ⟨c, List.mem_range.mpr hc, rfl⟩⟩

theorem elev_le_gmax {g : Grid} {r c : ℕ} (hr : r < g.h) (hc : c < g.w) :
    g.elev r c ≤ g.gmax := by
  have h := le_foldr_max (fun p : ℕ × ℕ => g.elev p.1 p.2) g.cells
    (g.elev 0 0) (mem_cells hr hc)
  exact h

theorem seed_border {g : Grid} (t : ℚ) {r c : ℕ} (h : ¬ g.inter r c) :
    seed g t r c = g.elev r c := by
  unfold seed seedFill
  by_cases he : g.elev r c < t <;> simp [he, h]

theorem seed_eq_gmax {g : Grid} {t : ℚ} {r c : ℕ} (hi : g.inter r c)
    (he : g.elev r c < t) : seed g t r c = g.gmax := by
  unfold seed seedFill
  simp [he, hi]

theorem seed_eq_elev_of_not_lt {g : Grid} {t : ℚ} {r c : ℕ}
    (he : ¬ g.elev r c < t) : seed g t r c = g.elev r c := by
  unfold seed
  simp [he]

theorem elev_le_seed {g : Grid} (t : ℚ) {r c : ℕ} (hr : r < g.h)
    (hc : c < g.w) : g.elev r c ≤ seed g t r c := by
  unfold seed seedFill
  by_cases he : g.elev r c < t
  · by_cases hi : g.inter r c
    · simp only [he, if_true, hi]
      exact elev_le_gmax hr hc
    · simp [he, hi]
  · simp [he]

/-! ## Neighbor lemmas -/

theorem nbrs_spec {g : Grid} {r c : ℕ} (hr : r < g.h) (hc : c < g.w)
    {p : ℕ × ℕ} (hp : p ∈ nbrs g r c) :
    p.1 < g.h ∧ p.2 < g.w ∧ adjacentCells p.1 p.2 r c := by
  unfold nbrs at hp
  simp only [List.mem_append, or_assoc] at hp
  rcases hp with h | h | h | h
  · obtain ⟨hb, rfl⟩ := mem_ite_single h
    exact ⟨hb, hc, Or.inr (Or.inl ⟨rfl, rfl⟩)⟩
  · obtain ⟨hb, rfl⟩ := mem_ite_single h
    refine ⟨lt_of_le_of_lt (Nat.pred_le r) hr, hc,
      Or.inl ⟨(Nat.succ_pred_eq_of_pos hb).symm, rfl⟩⟩
  · obtain ⟨hb, rfl⟩ := mem_ite_single h
    exact ⟨hr, hb, Or.inr (Or.inr (Or.inr ⟨rfl, rfl⟩))⟩
  · obtain ⟨hb, rfl⟩ := mem_ite_single h
    exact ⟨hr, lt_of_le_of_lt (Nat.pred_le c) hc,
      Or.inr (Or.inr (Or.inl ⟨rfl, (Nat.succ_pred_eq_of_pos hb).symm⟩))⟩

theorem mem_nbrs_of_adjacent {g : Grid} {r c r' c' : ℕ}
    (hadj : adjacentCells r c r' c') (hr : r < g.h) (hc : c < g.w) :
    (r, c) ∈ nbrs g r' c' := by
  unfold nbrs
  simp only [List.mem_append, or_assoc]
  rcases hadj with ⟨h1, h2⟩ | ⟨h1, h2⟩ | ⟨h1, h2⟩ | ⟨h1, h2⟩
  · -- r' = r + 1, c' = c : the cell is the upward neighbor (r' - 1, c')
    subst h1; subst h2
    refine Or.inr (Or.inl ?_)
    rw [if_pos (Nat.succ_pos r)]
    simp
  · -- r = r' + 1, c' = c : the cell is the downward neighbor (r' + 1, c')
    subst h1; subst h2
    refine Or.inl ?_
    rw [if_pos hr]
    simp
  · -- r' = r, c' = c + 1 : the cell is the left neighbor (r', c' - 1)
    subst h1; subst h2
    refine Or.inr (Or.inr (Or.inr ?_))
    rw [if_pos (Nat.succ_pos c)]
    simp
  · -- r' = r, c = c' + 1 : the cell is the right neighbor (r', c' + 1)
    subst h1; subst h2
    refine Or.inr (Or.inr (Or.inl ?_))
    rw [if_pos hc]
    simp

/-! ## Erosion iteration lemmas -/

theorem elev_le_erodeFrom {g : Grid} {S : ℕ → ℕ → ℚ}
    (hS : ∀ r, r < g.h → ∀ c, c < g.w → g.elev r c ≤ S r c) :
    ∀ k r c, r < g.h → c < g.w → g.elev r c ≤ erodeFrom g S k r c := by
  intro k
  cases k with
  | zero => exact fun r c hr hc => hS r hr c hc
  | succ k =>
    intro r c _ _
    show g.elev r c ≤ erodeStep g (erodeFrom g S k) r c
    exact le_max_left _ _

theorem erodeStep_le {g : Grid} {R : ℕ → ℕ → ℚ} {r c : ℕ}
    (hE : g.elev r c ≤ R r c) : erodeStep g R r c ≤ R r c := by
  unfold erodeStep
  exact max_le hE (foldr_min_le_init _ _ _)

theorem erodeFrom_succ_le {g : Grid} {S : ℕ → ℕ → ℚ}
    (hS : ∀ r, r < g.h → ∀ c, c < g.w → g.elev r c ≤ S r c)
    (k : ℕ) {r c : ℕ} (hr : r < g.h) (hc : c < g.w) :
    erodeFrom g S (k + 1) r c ≤ erodeFrom g S k r c :=
  erodeStep_le (elev_le_erodeFrom hS k r c hr hc)

theorem erodeFrom_anti {g : Grid} {S : ℕ → ℕ → ℚ}
    (hS : ∀ r, r < g.h → ∀ c, c < g.w → g.elev r c ≤ S r c)
    {k k' : ℕ} (hk : k ≤ k') {r c : ℕ} (hr : r < g.h) (hc : c < g.w) :
    erodeFrom g S k' r c ≤ erodeFrom g S k r c := by
  induction k', hk using Nat.le_induction with
  | base => exact le_refl _
  | succ n hn ih => exact le_trans (erodeFrom_succ_le hS n hr hc) ih

theorem erodeStep_lt_iff {g : Grid} {R : ℕ → ℕ → ℚ} {t : ℚ} {r c : ℕ} :
    erodeStep g R r c < t ↔
      g.elev r c < t ∧ (R r c < t ∨ ∃ p ∈ nbrs g r c, R p.1 p.2 < t) := by
  unfold erodeStep
  rw [max_lt_iff, foldr_min_lt_iff]

/-! ## Reachability lemmas -/

theorem reach_of_all_lt {g : Grid} {t : ℚ}
    (hall : ∀ r, r < g.h → ∀ c, c < g.w → g.elev r c < t) :
    ∀ r c, r < g.h → c < g.w → Reach g t r c := by
  intro r c hr
  induction c with
  | zero =>
    intro hc
    exact Reach.border r 0 hr hc (fun hi => absurd hi.2.2.1 (lt_irrefl 0))
      (hall r hr 0 hc)
  | succ c ih =>
    intro hc
    exact Reach.step r c r (c + 1) (ih (Nat.lt_of_succ_lt hc))
      (Or.inr (Or.inr (Or.inl ⟨rfl, rfl⟩))) hr hc (hall r hr (c + 1) hc)

theorem t_le_erode_of_not_reach {g : Grid} {t : ℚ} :
    ∀ k r c, r < g.h → c < g.w → ¬ Reach g t r c →
      t ≤ erodeFrom g (seed g t) k r c := by
  intro k
  induction k with
  | zero =>
    intro r c hr hc hnr
    show t ≤ seed g t r c
    by_cases he : g.elev r c < t
    · by_cases hi : g.inter r c
      · rw [seed_eq_gmax hi he]
        by_contra hlt
        push_neg at hlt
        exact hnr (reach_of_all_lt
          (fun r' hr' c' hc' => lt_of_le_of_lt (elev_le_gmax hr' hc') hlt)
          r c hr hc)
      · exact absurd (Reach.border r c hr hc hi he) hnr
    · rw [seed_eq_elev_of_not_lt he]
      exact not_lt.mp he
  | succ k ih =>
    intro r c hr hc hnr
    show t ≤ erodeStep g (erodeFrom g (seed g t) k) r c
    by_contra hlt
    push_neg at hlt
    obtain ⟨he, hmin⟩ := erodeStep_lt_iff.mp hlt
    rcases hmin with hself | ⟨p, hp, hplt⟩
    · exact absurd hself (not_lt.mpr (ih r c hr hc hnr))
    · obtain ⟨hp1, hp2, hadj⟩ := nbrs_spec hr hc hp
      have hnp : ¬ Reach g t p.1 p.2 := fun hrp =>
        hnr (Reach.step p.1 p.2 r c hrp hadj hr hc he)
      exact absurd hplt (not_lt.mpr (ih p.1 p.2 hp1 hp2 hnp))

/-! ## Convergence of the sub-threshold region -/

theorem erodeFrom_succ (g : Grid) (S : ℕ → ℕ → ℚ) (k : ℕ) :
    erodeFrom g S (k + 1) = erodeStep g (erodeFrom g S k) := rfl

theorem mem_cellsFinset {g : Grid} {p : ℕ × ℕ} :
    p ∈ cellsFinset g ↔ p.1 < g.h ∧ p.2 < g.w := by
  unfold cellsFinset
  rw [Finset.mem_product, Finset.mem_range, Finset.mem_range]

theorem card_cellsFinset (g : Grid) : (cellsFinset g).card = g.h * g.w := by
  unfold cellsFinset
  rw [Finset.card_product, Finset.card_range, Finset.card_range]

theorem mem_floodSet {g : Grid} {t : ℚ} {S : ℕ → ℕ → ℚ} {k : ℕ}
    {p : ℕ × ℕ} : p ∈ floodSet g t S k ↔
      p.1 < g.h ∧ p.2 < g.w ∧ erodeFrom g S k p.1 p.2 < t := by
  unfold floodSet
  rw [Finset.mem_filter, mem_cellsFinset]
  tauto

theorem floodSet_subset_succ {g : Grid} {t : ℚ} {S : ℕ → ℕ → ℚ}
    (hS : ∀ r, r < g.h → ∀ c, c < g.w → g.elev r c ≤ S r c) (k : ℕ) :
    floodSet g t S k ⊆ floodSet g t S (k + 1) := by
  intro p hp
  obtain ⟨h1, h2, h3⟩ := mem_floodSet.mp hp
  exact mem_floodSet.mpr
    ⟨h1, h2, lt_of_le_of_lt (erodeFrom_succ_le hS k h1 h2) h3⟩

theorem floodSet_subset_of_le {g : Grid} {t : ℚ} {S : ℕ → ℕ → ℚ}
    (hS : ∀ r, r < g.h → ∀ c, c < g.w → g.elev r c ≤ S r c)
    {k k' : ℕ} (hk : k ≤ k') : floodSet g t S k ⊆ floodSet g t S k' := by
  induction k', hk using Nat.le_induction with
  | base => exact subset_refl _
  | succ n hn ih => exact subset_trans ih (floodSet_subset_succ hS n)

theorem floodSet_succ_eq {g : Grid} {t : ℚ} {S : ℕ → ℕ → ℚ} (k : ℕ) :
    floodSet g t S (k + 1) = stepSet g t (floodSet g t S k) := by
  ext p
  rw [mem_floodSet]
  unfold stepSet
  rw [Finset.mem_filter, mem_cellsFinset]
  constructor
  · rintro ⟨h1, h2, h3⟩
    rw [erodeFrom_succ] at h3
    obtain ⟨he, hor⟩ := erodeStep_lt_iff.mp h3
    refine ⟨⟨h1, h2⟩, he, ?_⟩
    rcases hor with hself | ⟨q, hq, hqlt⟩
    · exact Or.inl (mem_floodSet.mpr ⟨h1, h2, hself⟩)
    · obtain ⟨hq1, hq2, _⟩ := nbrs_spec h1 h2 hq
      exact Or.inr ⟨q, hq, mem_floodSet.mpr ⟨hq1, hq2, hqlt⟩⟩
  · rintro ⟨⟨h1, h2⟩, he, hor⟩
    refine ⟨h1, h2, ?_⟩
    rw [erodeFrom_succ]
    refine erodeStep_lt_iff.mpr ⟨he, ?_⟩
    rcases hor with hmem | ⟨q, hq, hqmem⟩
    · exact Or.inl (mem_floodSet.mp hmem).2.2
    · exact Or.inr ⟨q, hq, (mem_floodSet.mp hqmem).2.2⟩

theorem floodSet_subset_hw {g : Grid} {t : ℚ} {S : ℕ → ℕ → ℚ}
    (hS : ∀ r, r < g.h → ∀ c, c < g.w → g.elev r c ≤ S r c) (j : ℕ) :
    floodSet g t S j ⊆ floodSet g t S (g.h * g.w) := by
  have hstab : ∃ k, k ≤ g.h * g.w ∧
      floodSet g t S k = floodSet g t S (k + 1) := by
    by_contra hno
    push_neg at hno
    have hgrow : ∀ k, k ≤ g.h * g.w + 1 → k ≤ (floodSet g t S k).card := by
      intro k
      induction k with
      | zero => intro _; exact Nat.zero_le _
      | succ k ih =>
        intro hk
        have h1 : k ≤ (floodSet g t S k).card := ih (by omega)
        have hss : floodSet g t S k ⊂ floodSet g t S (k + 1) :=
          Finset.ssubset_iff_subset_ne.mpr
            ⟨floodSet_subset_succ hS k, hno k (by omega)⟩
        have h2 := Finset.card_lt_card hss
        omega
    have hcard : (floodSet g t S (g.h * g.w + 1)).card ≤ g.h * g.w := by
      calc (floodSet g t S (g.h * g.w + 1)).card
          ≤ (cellsFinset g).card :=
            Finset.card_le_card (Finset.filter_subset _ _)
        _ = g.h * g.w := card_cellsFinset g
    have h3 := hgrow (g.h * g.w + 1) (le_refl _)
    omega
  obtain ⟨k, hkle, hfix⟩ := hstab
  have hsame : ∀ j', k ≤ j' → floodSet g t S j' = floodSet g t S k := by
    intro j' hj'
    induction j', hj' using Nat.le_induction with
    | base => rfl
    | succ n hn ih =>
      calc floodSet g t S (n + 1)
          = stepSet g t (floodSet g t S n) := floodSet_succ_eq n
        _ = stepSet g t (floodSet g t S k) := by rw [ih]
        _ = floodSet g t S (k + 1) := (floodSet_succ_eq k).symm
        _ = floodSet g t S k := hfix.symm
  rcases le_total j (g.h * g.w) with hj | hj
  · exact floodSet_subset_of_le hS hj
  · rw [hsame j (le_trans hkle hj), hsame (g.h * g.w) hkle]

theorem reach_mem_floodSet {g : Grid} {t : ℚ} {r c : ℕ}
    (h : Reach g t r c) : ∃ k, (r, c) ∈ floodSet g t (seed g t) k := by
  induction h with
  | border a b ha hb hbord helev =>
    refine ⟨0, mem_floodSet.mpr ⟨ha, hb, ?_⟩⟩
    show seed g t a b < t
    rw [seed_border t hbord]
    exact helev
  | step a b a' b' hab hadj ha' hb' helev ih =>
    obtain ⟨k, hk⟩ := ih
    obtain ⟨h1, h2, h3⟩ := mem_floodSet.mp hk
    refine ⟨k + 1, mem_floodSet.mpr ⟨ha', hb', ?_⟩⟩
    rw [erodeFrom_succ]
    exact erodeStep_lt_iff.mpr
      ⟨helev, Or.inr ⟨(a, b), mem_nbrs_of_adjacent hadj h1 h2, h3⟩⟩

theorem erode_lt_of_reach {g : Grid} {t : ℚ} {r c : ℕ} (h : Reach g t r c)
    {K : ℕ} (hK : g.h * g.w ≤ K) : erodeFrom g (seed g t) K r c < t := by
  obtain ⟨k, hk⟩ := reach_mem_floodSet h
  have hmem : (r, c) ∈ floodSet g t (seed g t) (g.h * g.w) :=
    floodSet_subset_hw (fun a ha b hb => elev_le_seed t ha hb) k hk
  obtain ⟨h1, h2, h3⟩ := mem_floodSet.mp hmem
  exact lt_of_le_of_lt
    (erodeFrom_anti (fun a ha b hb => elev_le_seed t ha hb) hK h1 h2) h3

/-- C1: for every sanitized grid `E` and threshold `t`, once the erosion
reconstruction is run to its fixed point (any number of passes at or above
`h * w`), the extracted flood mask marks a cell flooded if and only if a
4-connected path of cells, all strictly below `t` in `E`, joins some
border cell to that cell; in particular an isolated below-threshold
depression with no such path stays dry. -/
theorem flood_mask_iff_connected (g : Grid) (t : ℚ) (K : ℕ)
    (hK : g.h * g.w ≤ K) (r c : ℕ) (hr : r < g.h) (hc : c < g.w) :
    floodMask g t K r c = true ↔ Reach g t r c := by
  unfold floodMask reconstructErosion
  rw [decide_eq_true_eq]
  constructor
  · intro hlt
    by_contra hnr
    exact absurd hlt (not_lt.mpr (t_le_erode_of_not_reach K r c hr hc hnr))
  · intro hre
    exact erode_lt_of_reach hre hK

/-! ## The 5×5 example -/

theorem ex5_low {r c : ℕ} (h : ex5.elev r c < 1) :
    (c = 1 ∧ r ≤ 2) ∨ (r = 2 ∧ c = 3) := by
  by_contra hn
  have he : ex5.elev r c = 5 := by
    show (if (c = 1 ∧ r ≤ 2) ∨ (r = 2 ∧ c = 3) then (0 : ℚ) else 5) = 5
    rw [if_neg hn]
  rw [he] at h
  norm_num at h

theorem ex5_reach_channel {r c : ℕ} (h : Reach ex5 1 r c) :
    (r = 0 ∧ c = 1) ∨ (r = 1 ∧ c = 1) ∨ (r = 2 ∧ c = 1) := by
  induction h with
  | border a b ha hb hbord helev =>
    rcases ex5_low helev with ⟨hc1, hr2⟩ | ⟨hr2, hc3⟩
    · omega
    · subst hr2; subst hc3
      exact absurd ⟨by decide, by decide, by decide, by decide⟩ hbord
  | step a b a' b' hab hadj ha' hb' helev ih =>
    rcases ex5_low helev with ⟨hc1, hr2⟩ | ⟨hr2, hc3⟩
    · omega
    · exfalso
      unfold adjacentCells at hadj
      omega

theorem ex5_reach_21 : Reach ex5 1 2 1 := by
  have h0 : Reach ex5 1 0 1 :=
    Reach.border 0 1 (by decide) (by decide)
      (fun hi => absurd hi.1 (by decide)) (by decide)
  have h1 : Reach ex5 1 1 1 :=
    Reach.step 0 1 1 1 h0 (Or.inl ⟨rfl, rfl⟩) (by decide) (by decide)
      (by decide)
  exact Reach.step 1 1 2 1 h1 (Or.inl ⟨rfl, rfl⟩) (by decide) (by decide)
    (by decide)

/-- C1 witness: on the 5×5 channel example the theorem shows the channel
end `(2,1)` floods while the equally low but disconnected interior cell
`(2,3)` stays dry. -/
theorem flood_mask_iff_connected_witness :
    floodMask ex5 1 25 2 1 = true ∧ floodMask ex5 1 25 2 3 = false := by
  constructor
  · exact (flood_mask_iff_connected ex5 1 25 (by decide) 2 1 (by decide)
      (by decide)).mpr ex5_reach_21
  · have h := flood_mask_iff_connected ex5 1 25 (by decide) 2 3 (by decide)
      (by decide)
    have hnr : ¬ Reach ex5 1 2 3 := fun hre => by
      rcases ex5_reach_channel hre with ⟨_, h2⟩ | ⟨_, h2⟩ | ⟨_, h2⟩ <;> omega
    rcases Bool.eq_false_or_eq_true (floodMask ex5 1 25 2 3) with hb | hb
    · exact absurd (h.mp hb) hnr
    · exact hb

/-! ## Seed characterization (claim C2) -/

/-- C2 (amended): in the seed the engine actually builds, an interior cell
strictly below the threshold holds the global maximum elevation, a border
cell always holds its own elevation, and any cell not strictly below the
threshold holds its own elevation. -/
theorem seed_characterization (g : Grid) (t : ℚ) (r c : ℕ) :
    (g.inter r c → g.elev r c < t → seed g t r c = g.gmax) ∧
    (¬ g.inter r c → seed g t r c = g.elev r c) ∧
    (¬ g.elev r c < t → seed g t r c = g.elev r c) :=
  ⟨fun hi he => seed_eq_gmax hi he, fun hb => seed_border t hb,
    fun he => seed_eq_elev_of_not_lt he⟩

/-- C2 witness: on the 3×3 grid `exC2` with threshold 1, the amended rules
give the interior below-threshold cell the global maximum and the corner
cell its own elevation. -/
theorem seed_characterization_witness :
    seed exC2 1 1 1 = exC2.gmax ∧ seed exC2 1 0 0 = exC2.elev 0 0 :=
  ⟨(seed_characterization exC2 1 1 1).1 (by decide) (by decide),
    (seed_characterization exC2 1 0 0).2.1 (by decide)⟩

/-- C2 counterexample: the claim's seed description (interior cells not
below the threshold hold the global maximum; every cell strictly below the
threshold holds its own elevation) is false on `exC2` with threshold 1:
the below-threshold interior cell `(1,1)` holds the global maximum 5, not
its own elevation 0. -/
theorem seed_claim_counterexample :
    ¬ (∀ r, r < exC2.h → ∀ c, c < exC2.w →
        (exC2.inter r c → ¬ exC2.elev r c < 1 →
          seed exC2 1 r c = exC2.gmax) ∧
        (¬ exC2.inter r c → ¬ exC2.elev r c < 1 →
          seed exC2 1 r c = exC2.elev r c) ∧
        (exC2.elev r c < 1 → seed exC2 1 r c = exC2.elev r c)) := by
  intro hclaim
  have h := (hclaim 1 (by decide) 1 (by decide)).2.2 (by decide)
  rw [seed_eq_gmax (by decide) (by decide)] at h
  have h5 : exC2.gmax = 5 := by decide
  have h0 : exC2.elev 1 1 = 0 := by decide
  rw [h5, h0] at h
  norm_num at h

/-! ## Reconstruction invariant (claim C3) -/

/-- C3: for every grid and every seed dominating the grid pointwise, the
working surface of the erosion computation stays at or above the grid
elevation at every cell, at every iteration (hence also at the fixed
point). -/
theorem reconstruction_ge_mask (g : Grid) (S : ℕ → ℕ → ℚ)
    (hS : ∀ r, r < g.h → ∀ c, c < g.w → g.elev r c ≤ S r c)
    (k r c : ℕ) (hr : r < g.h) (hc : c < g.w) :
    g.elev r c ≤ erodeFrom g S k r c :=
  elev_le_erodeFrom hS k r c hr hc

/-- C3 witness: the invariant instantiated on the 2×2 constant grid with
constant seed 10, after two erosion passes. -/
theorem reconstruction_ge_mask_witness :
    exC3.elev 0 0 ≤ erodeFrom exC3 exC3seed 2 0 0 :=
  reconstruction_ge_mask exC3 exC3seed (by decide) 2 0 0 (by decide)
    (by decide)

/-! ## Sanitizer characterization (claim C4) -/

/-- C4: the sanitizer replaces exactly the cells equal to the sentinel
(defaulting to −9999 when none is supplied) and the cells strictly below
−100 with 9999, and leaves every other value unchanged; the two rules are
applied independently. -/
theorem sanitize_characterization (nodata : Option ℚ) (v : ℚ) :
    sanitizeCell nodata v =
      if v = nodata.getD (-9999) ∨ v < -100 then 9999 else v := by
  simp only [sanitizeCell]
  by_cases h1 : v = nodata.getD (-9999)
  · rw [if_pos h1, if_neg (show ¬ (9999 : ℚ) < -100 by norm_num),
      if_pos (Or.inl h1)]
  · rw [if_neg h1]
    by_cases h2 : v < -100
    · rw [if_pos h2, if_pos (Or.inr h2)]
    · rw [if_neg h2, if_neg (fun h => h.elim h1 h2)]

/-! ## Scenario arithmetic (claim C5) -/

/-- C5: the scenario calculator returns `tide + surge + slr` as the total
water level and subtracts the datum offset for the flood threshold, with
no other conditions; the example scenario yields exactly 5.53 and 3.53. -/
theorem scenario_arithmetic (tide surge slr datum : ℚ) :
    total_water_level tide surge slr = tide + surge + slr ∧
    flood_threshold tide surge slr datum = tide + surge + slr - datum ∧
    total_water_level 3.8 0.6 1.13 = 5.53 ∧
    flood_threshold 3.8 0.6 1.13 2.00 = 3.53 := by
  refine ⟨rfl, rfl, ?_, ?_⟩
  · show (3.8 : ℚ) + 0.6 + 1.13 = 5.53
    norm_num
  · show (3.8 : ℚ) + 0.6 + 1.13 - 2.00 = 3.53
    norm_num

/-! ## Small-grid degeneration (claim C6) -/

theorem not_inter_of_small {g : Grid} (hsmall : g.h < 3 ∨ g.w < 3)
    (r c : ℕ) : ¬ g.inter r c := by
  intro hi
  obtain ⟨h1, h2, h3, h4⟩ := hi
  rcases hsmall with h | h <;> omega

theorem erode_id_of_seed_eq_elev {g : Grid} {S : ℕ → ℕ → ℚ}
    (hSE : ∀ r, r < g.h → ∀ c, c < g.w → S r c = g.elev r c) :
    ∀ k r c, r < g.h → c < g.w → erodeFrom g S k r c = g.elev r c := by
  intro k
  induction k with
  | zero => exact fun r c hr hc => hSE r hr c hc
  | succ k ih =>
    intro r c hr hc
    rw [erodeFrom_succ]
    unfold erodeStep
    have hinit := ih r c hr hc
    have hle := foldr_min_le_init
      (fun p : ℕ × ℕ => erodeFrom g S k p.1 p.2) (nbrs g r c)
      (erodeFrom g S k r c)
    exact max_eq_left (le_trans hle (le_of_eq hinit))

/-- C6: on a grid with fewer than 3 rows or columns (no interior cells)
the seed equals the elevation grid everywhere, every erosion pass leaves
it unchanged, and the flood mask degenerates to the pointwise rule
`elevation < threshold`. -/
theorem small_grid_pointwise (g : Grid) (t : ℚ) (k r c : ℕ)
    (hsmall : g.h < 3 ∨ g.w < 3) (hr : r < g.h) (hc : c < g.w) :
    seed g t r c = g.elev r c ∧
    erodeFrom g (seed g t) k r c = g.elev r c ∧
    floodMask g t k r c = decide (g.elev r c < t) := by
  have hseed : ∀ a, a < g.h → ∀ b, b < g.w → seed g t a b = g.elev a b :=
    fun a _ b _ => seed_border t (not_inter_of_small hsmall a b)
  refine ⟨hseed r hr c hc, erode_id_of_seed_eq_elev hseed k r c hr hc, ?_⟩
  unfold floodMask reconstructErosion
  rw [erode_id_of_seed_eq_elev hseed k r c hr hc]

/-- C6 witness: the degenerate behaviour on the 2×2 grid `exC6`, after
four erosion passes, at cell `(1,1)`. -/
theorem small_grid_pointwise_witness :
    seed exC6 1 1 1 = exC6.elev 1 1 ∧
    erodeFrom exC6 (seed exC6 1) 4 1 1 = exC6.elev 1 1 ∧
    floodMask exC6 1 4 1 1 = decide (exC6.elev 1 1 < 1) :=
  small_grid_pointwise exC6 1 4 1 1 (Or.inl (by decide)) (by decide)
    (by decide)

/-! ## Tile planner lemmas (claim C7) -/

theorem flatMap_grid_length (n m : ℕ) (f : ℕ → ℕ → TileBounds) :
    ((List.range n).flatMap fun j =>
      (List.range m).map fun i => f i j).length = m * n := by
  induction n with
  | zero => simp
  | succ n ih =>
    rw [List.range_succ, List.flatMap_append, List.length_append, ih]
    simp [Nat.mul_succ]

theorem create_tiles_length (bounds : TileBounds) (s ov : ℚ) :
    (create_tiles bounds s ov).length =
      n_tiles_x bounds s * n_tiles_y bounds s := by
  unfold create_tiles
  exact flatMap_grid_length _ _ _

theorem tile_at_mem_create_tiles {bounds : TileBounds} {s ov : ℚ}
    {i j : ℕ} (hi : i < n_tiles_x bounds s) (hj : j < n_tiles_y bounds s) :
    tile_at bounds s ov i j ∈ create_tiles bounds s ov := by
  unfold create_tiles
  exact List.mem_flatMap.mpr ⟨j, List.mem_range.mpr hj,
    List.mem_map.mpr ⟨i, List.mem_range.mpr hi, rfl⟩⟩

theorem mem_create_tiles {bounds : TileBounds} {s ov : ℚ} {tb : TileBounds}
    (h : tb ∈ create_tiles bounds s ov) :
    ∃ i j, i < n_tiles_x bounds s ∧ j < n_tiles_y bounds s ∧
      tb = tile_at bounds s ov i j := by
  unfold create_tiles at h
  obtain ⟨j, hj, hmem⟩ := List.mem_flatMap.mp h
  obtain ⟨i, hi, rfl⟩ := List.mem_map.mp hmem
  exact ⟨i, j, List.mem_range.mp hi, List.mem_range.mp hj, rfl⟩

theorem tile_at_clamped (bounds : TileBounds) (s ov : ℚ) (i j : ℕ) :
    bounds.min_lon ≤ (tile_at bounds s ov i j).min_lon ∧
    (tile_at bounds s ov i j).max_lon ≤ bounds.max_lon ∧
    bounds.min_lat ≤ (tile_at bounds s ov i j).min_lat ∧
    (tile_at bounds s ov i j).max_lat ≤ bounds.max_lat := by
  simp only [tile_at]
  exact ⟨le_max_right _ _, min_le_right _ _, le_max_right _ _,
    min_le_right _ _⟩

theorem exists_cover_index (a b s ov p : ℚ) (hs : 0 < s) (hov : 0 ≤ ov)
    (hab : a < b) (hap : a ≤ p) (hpb : p ≤ b) :
    ∃ i : ℕ, i < (⌈(b - a) / s⌉).toNat ∧
      max (a + (i : ℚ) * s - (if 0 < i then ov else 0)) a ≤ p ∧
      p ≤ min (a + ((i : ℚ) + 1) * s + ov) b := by
  have hceil_pos : 0 < ⌈(b - a) / s⌉ :=
    Int.ceil_pos.mpr (div_pos (sub_pos.mpr hab) hs)
  have hncast : (((⌈(b - a) / s⌉).toNat : ℤ)) = ⌈(b - a) / s⌉ :=
    Int.toNat_of_nonneg (le_of_lt hceil_pos)
  set n : ℕ := (⌈(b - a) / s⌉).toNat with hn
  have hn_pos : 0 < n := by omega
  have hble : b - a ≤ (n : ℚ) * s := by
    have h1 : (b - a) / s ≤ ((⌈(b - a) / s⌉ : ℤ) : ℚ) := Int.le_ceil _
    rw [← hncast] at h1
    push_cast at h1
    calc b - a = ((b - a) / s) * s := by field_simp
      _ ≤ (n : ℚ) * s := mul_le_mul_of_nonneg_right h1 (le_of_lt hs)
  have hf_nonneg : 0 ≤ ⌊(p - a) / s⌋ :=
    Int.floor_nonneg.mpr (div_nonneg (sub_nonneg.mpr hap) (le_of_lt hs))
  have hfcast : (((⌊(p - a) / s⌋).toNat : ℤ)) = ⌊(p - a) / s⌋ :=
    Int.toNat_of_nonneg hf_nonneg
  set f : ℕ := (⌊(p - a) / s⌋).toNat with hf
  set i : ℕ := min (n - 1) f with hidef
  refine ⟨i, by omega, ?_, ?_⟩
  · -- left edge of the chosen tile lies at or left of p
    have hif : ((i : ℕ) : ℚ) * s ≤ p - a := by
      have h1 : ((i : ℕ) : ℚ) ≤ ((f : ℕ) : ℚ) := by
        exact_mod_cast Nat.min_le_right (n - 1) f
      have h2 : ((f : ℕ) : ℚ) ≤ (p - a) / s := by
        have h3 : ((⌊(p - a) / s⌋ : ℤ) : ℚ) ≤ (p - a) / s := Int.floor_le _
        rw [← hfcast] at h3
        push_cast at h3
        exact h3
      calc ((i : ℕ) : ℚ) * s ≤ ((p - a) / s) * s :=
            mul_le_mul_of_nonneg_right (le_trans h1 h2) (le_of_lt hs)
        _ = p - a := by field_simp
    have hd : (0 : ℚ) ≤ (if 0 < i then ov else 0) := by
      split
      · exact hov
      · exact le_refl 0
    refine max_le (by linarith) hap
  · -- right edge of the chosen tile lies at or right of p
    refine le_min ?_ hpb
    have hmain : p ≤ a + (((i : ℕ) : ℚ) + 1) * s := by
      rcases le_total f (n - 1) with hmin | hmin
      · have hieq : i = f := by rw [hidef]; exact Nat.min_eq_right hmin
        rw [hieq]
        have h1 : (p - a) / s < ((⌊(p - a) / s⌋ : ℤ) : ℚ) + 1 :=
          Int.lt_floor_add_one _
        rw [← hfcast] at h1
        push_cast at h1
        have h2 : p - a < (((f : ℕ) : ℚ) + 1) * s := by
          calc p - a = ((p - a) / s) * s := by field_simp
            _ < (((f : ℕ) : ℚ) + 1) * s :=
              mul_lt_mul_of_pos_right h1 hs
        linarith
      · have hieq : i = n - 1 := by rw [hidef]; exact Nat.min_eq_left hmin
        rw [hieq]
        have h1 : ((n - 1 : ℕ) : ℚ) + 1 = (n : ℚ) := by
          rw [Nat.cast_sub hn_pos]
          ring
        rw [h1]
        linarith
    linarith

/-- The tile planner in exact rational arithmetic: `create_tiles` returns
exactly `⌈lonExtent/s⌉ · ⌈latExtent/s⌉` tiles, every tile's edges are
clamped inside the overall bounds, and the tiles jointly cover every point
of the region. -/
theorem create_tiles_spec (bounds : TileBounds) (s ov : ℚ)
    (hlon : bounds.min_lon < bounds.max_lon)
    (hlat : bounds.min_lat < bounds.max_lat)
    (hs : 0 < s) (hov : 0 ≤ ov) :
    (create_tiles bounds s ov).length =
      n_tiles_x bounds s * n_tiles_y bounds s ∧
    (∀ tb ∈ create_tiles bounds s ov,
      bounds.min_lon ≤ tb.min_lon ∧ tb.max_lon ≤ bounds.max_lon ∧
      bounds.min_lat ≤ tb.min_lat ∧ tb.max_lat ≤ bounds.max_lat) ∧
    (∀ p q : ℚ, bounds.min_lon ≤ p → p ≤ bounds.max_lon →
      bounds.min_lat ≤ q → q ≤ bounds.max_lat →
      ∃ tb ∈ create_tiles bounds s ov,
        tb.min_lon ≤ p ∧ p ≤ tb.max_lon ∧
        tb.min_lat ≤ q ∧ q ≤ tb.max_lat) := by
  refine ⟨create_tiles_length bounds s ov, ?_, ?_⟩
  · intro tb htb
    obtain ⟨i, j, hi, hj, rfl⟩ := mem_create_tiles htb
    exact tile_at_clamped bounds s ov i j
  · intro p q hp1 hp2 hq1 hq2
    obtain ⟨i, hi, hilo, hihi⟩ := exists_cover_index bounds.min_lon
      bounds.max_lon s ov p hs hov hlon hp1 hp2
    obtain ⟨j, hj, hjlo, hjhi⟩ := exists_cover_index bounds.min_lat
      bounds.max_lat s ov q hs hov hlat hq1 hq2
    refine ⟨tile_at bounds s ov i j, tile_at_mem_create_tiles hi hj,
      ?_, ?_, ?_, ?_⟩
    · exact le_trans (le_of_eq rfl) hilo
    · exact le_trans hihi (le_of_eq rfl)
    · exact le_trans (le_of_eq rfl) hjlo
    · exact le_trans hjhi (le_of_eq rfl)

/-- C7: the Portugal-coast tiling example sits on an integer boundary and
the program rounds across it.  In exact arithmetic the longitude extent
over the tile size is exactly 2 — so the exact-rational embedding of
`create_tiles` returns 2 · 9 = 18 tiles — but any positive rounding error
in that quotient raises the ceiling to 3.  The program computes the
quotient in IEEE binary64, where `(-8.60) - (-8.90)` rounds to
`0.3 + 2^-51` and the division yields the double of exact value
`4503599627370507 / 2251799813685248` (that is, `2 + 11 * 2^-51`): its
ceiling is 3, so `create_tiles` actually builds 3 · 9 = 27 tiles at this
input, not the 18 stated by the claim and the spec. -/
theorem create_tiles_portugal_boundary :
    ((-8.60 : ℚ) - -8.90) / 0.15 = 2 ∧
    n_tiles_x ⟨-8.90, 40.55, -8.60, 41.87⟩ 0.15 = 2 ∧
    (create_tiles ⟨-8.90, 40.55, -8.60, 41.87⟩ 0.15 0.005).length = 18 ∧
    ⌈(4503599627370507 / 2251799813685248 : ℚ)⌉ = 3 ∧
    (∀ ε : ℚ, 0 < ε → 3 ≤ ⌈((-8.60 : ℚ) - -8.90) / 0.15 + ε⌉) := by
  have hquot : ((-8.60 : ℚ) - -8.90) / 0.15 = 2 := by norm_num
  have hx : n_tiles_x ⟨-8.90, 40.55, -8.60, 41.87⟩ 0.15 = 2 := by
    show (⌈((-8.60 : ℚ) - -8.90) / 0.15⌉).toNat = 2
    rw [hquot, show ⌈(2 : ℚ)⌉ = (2 : ℤ) by norm_num]
    decide
  have hy : n_tiles_y ⟨-8.90, 40.55, -8.60, 41.87⟩ 0.15 = 9 := by
    show (⌈((41.87 : ℚ) - 40.55) / 0.15⌉).toNat = 9
    rw [show ((41.87 : ℚ) - 40.55) / 0.15 = 44 / 5 by norm_num,
      show ⌈(44 / 5 : ℚ)⌉ = (9 : ℤ) by norm_num [Int.ceil_eq_iff]]
    decide
  refine ⟨hquot, hx, by rw [create_tiles_length, hx, hy], ?_, ?_⟩
  · rw [show ⌈(4503599627370507 / 2251799813685248 : ℚ)⌉ = (3 : ℤ)
      from by norm_num [Int.ceil_eq_iff]]
  · intro ε hε
    have h1 : (2 : ℤ) < ⌈((-8.60 : ℚ) - -8.90) / 0.15 + ε⌉ := by
      rw [Int.lt_ceil, hquot]
      push_cast
      linarith
    omega

/-- C7 witness: the boundary sensitivity applied at a concrete positive
perturbation of the exact quotient. -/
theorem create_tiles_portugal_boundary_witness :
    3 ≤ ⌈((-8.60 : ℚ) - -8.90) / 0.15 + 1 / 1000⌉ :=
  create_tiles_portugal_boundary.2.2.2.2 (1 / 1000) (by norm_num)

/-! ## Tile overlap width (claim C8) -/

/-- C8 (amended): two horizontally (resp. vertically) adjacent tiles whose
shared seam is interior to the overall region (neither expanded edge
clamped) overlap by exactly twice the configured margin — each of the two
tiles extends `overlap` past the seam, so their common strip is
`2 · overlap` wide, not `overlap`. -/
theorem tile_overlap_width (bounds : TileBounds) (s ov : ℚ) (i j : ℕ)
    (hs : 0 < s) (_hov : 0 ≤ ov) (hovs : ov ≤ s)
    (hi : i + 1 < n_tiles_x bounds s) (hj : j + 1 < n_tiles_y bounds s)
    (hseamlon : bounds.min_lon + ((i : ℚ) + 1) * s + ov ≤ bounds.max_lon)
    (hseamlat : bounds.min_lat + ((j : ℚ) + 1) * s + ov ≤ bounds.max_lat) :
    tile_at bounds s ov i j ∈ create_tiles bounds s ov ∧
    tile_at bounds s ov (i + 1) j ∈ create_tiles bounds s ov ∧
    tile_at bounds s ov i (j + 1) ∈ create_tiles bounds s ov ∧
    (tile_at bounds s ov i j).max_lon -
      (tile_at bounds s ov (i + 1) j).min_lon = 2 * ov ∧
    (tile_at bounds s ov i j).max_lat -
      (tile_at bounds s ov i (j + 1)).min_lat = 2 * ov := by
  have hnn : 0 ≤ (i : ℚ) * s := mul_nonneg (Nat.cast_nonneg i) (le_of_lt hs)
  have hnnj : 0 ≤ (j : ℚ) * s := mul_nonneg (Nat.cast_nonneg j) (le_of_lt hs)
  refine ⟨tile_at_mem_create_tiles (by omega) (by omega),
    tile_at_mem_create_tiles hi (by omega),
    tile_at_mem_create_tiles (by omega) hj, ?_, ?_⟩
  · have h1 : (tile_at bounds s ov i j).max_lon =
        bounds.min_lon + ((i : ℚ) + 1) * s + ov := by
      show min (bounds.min_lon + ((i : ℚ) + 1) * s + ov) bounds.max_lon = _
      exact min_eq_left hseamlon
    have h2 : (tile_at bounds s ov (i + 1) j).min_lon =
        bounds.min_lon + ((i : ℚ) + 1) * s - ov := by
      show max (bounds.min_lon + ((i + 1 : ℕ) : ℚ) * s -
        (if 0 < i + 1 then ov else 0)) bounds.min_lon = _
      rw [if_pos (Nat.succ_pos i)]
      push_cast
      exact max_eq_left (by linarith)
    rw [h1, h2]
    ring
  · have h1 : (tile_at bounds s ov i j).max_lat =
        bounds.min_lat + ((j : ℚ) + 1) * s + ov := by
      show min (bounds.min_lat + ((j : ℚ) + 1) * s + ov) bounds.max_lat = _
      exact min_eq_left hseamlat
    have h2 : (tile_at bounds s ov i (j + 1)).min_lat =
        bounds.min_lat + ((j : ℚ) + 1) * s - ov := by
      show max (bounds.min_lat + ((j + 1 : ℕ) : ℚ) * s -
        (if 0 < j + 1 then ov else 0)) bounds.min_lat = _
      rw [if_pos (Nat.succ_pos j)]
      push_cast
      exact max_eq_left (by linarith)
    rw [h1, h2]
    ring

/-- C8 witness: in the 2×2 tiling of the square (0,0)–(0.3,0.3) with tile
size 0.15 and overlap 0.005 the two seam strips are each 0.01 wide. -/
theorem tile_overlap_width_witness :
    (tile_at ⟨0, 0, 3/10, 3/10⟩ (3/20) (1/200) 0 0).max_lon -
      (tile_at ⟨0, 0, 3/10, 3/10⟩ (3/20) (1/200) 1 0).min_lon =
        2 * (1/200) ∧
    (tile_at ⟨0, 0, 3/10, 3/10⟩ (3/20) (1/200) 0 0).max_lat -
      (tile_at ⟨0, 0, 3/10, 3/10⟩ (3/20) (1/200) 0 1).min_lat =
        2 * (1/200) := by
  have hnx : n_tiles_x ⟨0, 0, 3/10, 3/10⟩ (3/20) = 2 := by
    show (⌈((3/10 : ℚ) - 0) / (3/20)⌉).toNat = 2
    rw [show ((3/10 : ℚ) - 0) / (3/20) = 2 by norm_num,
      show ⌈(2 : ℚ)⌉ = (2 : ℤ) by norm_num]
    decide
  have hny : n_tiles_y ⟨0, 0, 3/10, 3/10⟩ (3/20) = 2 := by
    show (⌈((3/10 : ℚ) - 0) / (3/20)⌉).toNat = 2
    rw [show ((3/10 : ℚ) - 0) / (3/20) = 2 by norm_num,
      show ⌈(2 : ℚ)⌉ = (2 : ℤ) by norm_num]
    decide
  have h := tile_overlap_width ⟨0, 0, 3/10, 3/10⟩ (3/20) (1/200) 0 0
    (by norm_num) (by norm_num) (by norm_num)
    (by rw [hnx]; omega) (by rw [hny]; omega)
    (by show (0 : ℚ) + (((0 : ℕ) : ℚ) + 1) * (3/20) + 1/200 ≤ 3/10
        push_cast; norm_num)
    (by show (0 : ℚ) + (((0 : ℕ) : ℚ) + 1) * (3/20) + 1/200 ≤ 3/10
        push_cast; norm_num)
  exact ⟨h.2.2.2.1, h.2.2.2.2⟩

/-- C8 counterexample: in the 2×1 tiling of (0,0)–(0.3,0.15) with tile
size 0.15 and overlap 0.005, the two produced tiles share an interior
(unclamped) seam and their common strip `[0.145, 0.155]` is 0.01 wide,
not 0.005: the overlap is twice the configured margin. -/
theorem tile_overlap_claim_counterexample :
    tile_at ⟨0, 0, 3/10, 3/20⟩ (3/20) (1/200) 0 0 ∈
      create_tiles ⟨0, 0, 3/10, 3/20⟩ (3/20) (1/200) ∧
    tile_at ⟨0, 0, 3/10, 3/20⟩ (3/20) (1/200) 1 0 ∈
      create_tiles ⟨0, 0, 3/10, 3/20⟩ (3/20) (1/200) ∧
    (tile_at ⟨0, 0, 3/10, 3/20⟩ (3/20) (1/200) 0 0).max_lon = 31/200 ∧
    (tile_at ⟨0, 0, 3/10, 3/20⟩ (3/20) (1/200) 1 0).min_lon = 29/200 ∧
    (0 : ℚ) < 29/200 ∧ (31/200 : ℚ) < 3/10 ∧
    ¬ ((31/200 : ℚ) - 29/200 = 1/200) := by
  have hnx : n_tiles_x ⟨0, 0, 3/10, 3/20⟩ (3/20) = 2 := by
    show (⌈((3/10 : ℚ) - 0) / (3/20)⌉).toNat = 2
    rw [show ((3/10 : ℚ) - 0) / (3/20) = 2 by norm_num,
      show ⌈(2 : ℚ)⌉ = (2 : ℤ) by norm_num]
    decide
  have hny : n_tiles_y ⟨0, 0, 3/10, 3/20⟩ (3/20) = 1 := by
    show (⌈((3/20 : ℚ) - 0) / (3/20)⌉).toNat = 1
    rw [show ((3/20 : ℚ) - 0) / (3/20) = 1 by norm_num,
      show ⌈(1 : ℚ)⌉ = (1 : ℤ) by norm_num]
    decide
  refine ⟨tile_at_mem_create_tiles (by rw [hnx]; omega) (by rw [hny]; omega),
    tile_at_mem_create_tiles (by rw [hnx]; omega) (by rw [hny]; omega),
    ?_, ?_, by norm_num, by norm_num, by norm_num⟩
  · show min ((0 : ℚ) + (((0 : ℕ) : ℚ) + 1) * (3/20) + 1/200) (3/10) =
      31/200
    push_cast
    rw [min_eq_left (by norm_num)]
    norm_num
  · show max ((0 : ℚ) + ((1 : ℕ) : ℚ) * (3/20) -
      (if 0 < (1 : ℕ) then (1/200 : ℚ) else 0)) 0 = 29/200
    rw [if_pos (by omega : 0 < (1 : ℕ))]
    push_cast
    rw [max_eq_left (by norm_num)]
    norm_num

/-! ## Tile orchestrator (claim C9) -/

/-- C9 (amended): `process_tiles` yields exactly one record per tile in
the planner's original order — `(some outcome, bounds)` on success and the
bare `(none, bounds)` placeholder on a caught failure (the error detail is
only logged, not stored in the result) — continues past failures, and its
running totals sum the flooded pixels and flooded area of exactly the
successful tiles. -/
theorem process_tiles_spec (sim : TileBounds → Except String SimOutcome)
    (tiles : List TileBounds) :
    (process_tiles sim tiles).1 =
      tiles.map (fun tb => ((sim tb).toOption, tb)) ∧
    (process_tiles sim tiles).2.1 =
      (tiles.map (fun tb => match sim tb with
        | Except.ok m => m.flooded_pixels
        | Except.error _ => 0)).sum ∧
    (process_tiles sim tiles).2.2 =
      (tiles.map (fun tb => match sim tb with
        | Except.ok m => m.flooded_area_km2
        | Except.error _ => 0)).sum := by
  induction tiles with
  | nil => exact ⟨rfl, rfl, rfl⟩
  | cons tb rest ih =>
    obtain ⟨ih1, ih2, ih3⟩ := ih
    simp only [process_tiles, List.map_cons, List.sum_cons]
    cases hsim : sim tb with
    | ok m =>
      simp only [Except.toOption] at ih1 ⊢
      exact ⟨by rw [ih1], by rw [ih2], by rw [ih3]⟩
    | error e =>
      simp only [Except.toOption] at ih1 ⊢
      exact ⟨by rw [ih1], by rw [ih2, zero_add], by rw [ih3, zero_add]⟩

/-- C9 counterexample: two runs differing only in the error message
produce identical outputs, and the failed tile's record is the bare
`(none, bounds)` pair — `process_tiles` does not record any error detail
in its results. -/
theorem process_tiles_error_detail_counterexample :
    process_tiles simErrA [⟨0, 0, 1, 1⟩] =
      process_tiles simErrB [⟨0, 0, 1, 1⟩] ∧
    (process_tiles simErrA [⟨0, 0, 1, 1⟩]).1 = [(none, ⟨0, 0, 1, 1⟩)] ∧
    "tile region has no data" ≠ "input file not found" :=
  ⟨rfl, rfl, by decide⟩

/-! ## Sanitizer refinement (claim C10) -/

/-- C10: with the default sentinel −9999 (which lies below the −100
safety floor), the two-rule sanitization of Simul_corrected.py agrees
with the single-rule sanitization of Simul.py on every value. -/
theorem sanitize_default_equiv (v : ℚ) :
    sanitizeCell none v = sanitizeCellSimul v := by
  simp only [sanitizeCell, sanitizeCellSimul, Option.getD]
  by_cases h1 : v = -9999
  · rw [if_pos h1, if_neg (show ¬ (9999 : ℚ) < -100 by norm_num),
      if_pos (show v < -100 by rw [h1]; norm_num)]
  · rw [if_neg h1]
